import Mathlib

/-!
Verification development for the kemonoDownloader repository.

The definitions below are a shallow embedding of the Python source:
  * `utils.py`        : `sanitize_filename`, `get_file_extension`
  * `downloader.py`   : the synchronous `ImageDownloader` (retrying download,
                        skip-existing check, statistics accumulation)
  * `downloader_async.py` : the asynchronous `AsyncImageDownloader` (single
                        attempt per job, rate gate, statistics accumulation)
  * `parser.py`       : `parse_user_posts` (per-page URL dedup) and
                        `get_pagination_offset`
  * `scraper.py`      : the `get_user_posts` pagination loop

Strings are modelled as Lean `String` / `List Char`; machine integers in the
Python code are unbounded, matching `Nat`/`Int`; wall-clock times in the rate
gate are `Int` in an arbitrary discrete unit.  Filesystem state is a list of
existing paths, network transport is an explicit function argument.
-/

namespace Kemono

/-! ## String helpers (Python `str.split`, `str.strip`, slices) -/

/-- Python `s.split(c)` on a single-character separator: splits at every
occurrence, keeps empty pieces, `"".split(c) = [""]`. -/
def splitOnChar (c : Char) : List Char → List (List Char)
  | [] => [[]]
  | x :: xs =>
    if x = c then [] :: splitOnChar c xs
    else
      match splitOnChar c xs with
      | h :: t => (x :: h) :: t
      | [] => [[x]]

/-- Whitespace characters stripped by Python `str.strip()` (ASCII range). -/
def isPySpace (c : Char) : Bool :=
  c == ' ' || c == '\t' || c == '\n' || c == '\r' || c.toNat == 11 || c.toNat == 12

/-- Python `s.strip()`: drop leading and trailing whitespace. -/
def pyStrip (l : List Char) : List Char :=
  ((l.dropWhile isPySpace).reverse.dropWhile isPySpace).reverse

/-- Python slice `l[:n]` for a possibly negative bound `n`. -/
def pySliceTo (l : List Char) (n : Int) : List Char :=
  if 0 ≤ n then l.take n.toNat
  else l.take (l.length - (-n).toNat)

/-- `os.path.splitext` on a string with no path separator (as used in
`sanitize_filename` after slashes have been removed): split at the last dot,
unless all characters before that dot are themselves dots. -/
def splitextChars (l : List Char) : List Char × List Char :=
  let afterRev := l.reverse.takeWhile (fun c => c != '.')
  if afterRev.length = l.length then (l, [])
  else
    let nm := l.take (l.length - afterRev.length - 1)
    if nm.any (fun c => c != '.') then (nm, '.' :: afterRev.reverse) else (l, [])

/-! ## `utils.sanitize_filename` -/

/-- Characters removed by the first regex in `sanitize_filename`. -/
def invalidFileChar (c : Char) : Bool :=
  c == '<' || c == '>' || c == ':' || c == '"' || c == '/' ||
  c == '\\' || c == '|' || c == '?' || c == '*'

/-- Control characters removed by the second regex (`[\x00-\x1f\x7f]`). -/
def controlChar (c : Char) : Bool :=
  c.toNat ≤ 31 || c.toNat == 127

/-- `utils.sanitize_filename`: remove invalid and control characters,
truncate names longer than 200 characters keeping the extension, strip. -/
def sanitize_filename (s : String) : String :=
  let l1 := s.data.filter (fun c => !(invalidFileChar c))
  let l2 := l1.filter (fun c => !(controlChar c))
  let l3 :=
    if 200 < l2.length then
      let ne := splitextChars l2
      pySliceTo ne.1 (200 - (ne.2.length : Int)) ++ ne.2
    else l2
  String.mk (pyStrip l3)

/-! ## `utils.get_file_extension` -/

/-- `[a-zA-Z0-9]` from the extension regex. -/
def isAlnumAscii (c : Char) : Bool :=
  ('a' ≤ c && c ≤ 'z') || ('A' ≤ c && c ≤ 'Z') || ('0' ≤ c && c ≤ '9')

/-- First match of `re.search(r'\.([a-zA-Z0-9]+)(?:\?|$)', url)`: the first
dot whose following maximal alphanumeric run is nonempty and is terminated by
a question mark or the end of the string; returns the run. -/
def scanExt : List Char → Option (List Char)
  | [] => none
  | c :: rest =>
    if c = '.' then
      let run := rest.takeWhile isAlnumAscii
      if run.length ≠ 0 ∧ (rest.drop run.length = [] ∨ (rest.drop run.length).head? = some '?')
      then some run
      else scanExt rest
    else scanExt rest

/-- The image-extension allowlist from `get_file_extension`. -/
def imageExts : List String := ["jpg", "jpeg", "png", "gif", "webp", "bmp", "svg"]

/-- `utils.get_file_extension` with its default argument `".png"`:
extension from the URL's `.ext` pattern, lowercased and restricted to the
allowlist, otherwise the default. -/
def get_file_extension (url : String) : String :=
  match scanExt url.data with
  | some run =>
    let e := String.mk (run.map Char.toLower)
    if e ∈ imageExts then "." ++ e else ".png"
  | none => ".png"

/-! ## `_generate_filename` (identical in `downloader.py` and
`downloader_async.py`) -/

/-- Python `f"{index:03d}"` for a natural number. -/
def pad3 (n : Nat) : String :=
  let s := Nat.repr n
  if s.length < 3 then String.mk (List.replicate (3 - s.length) '0') ++ s else s

/-- `url.split('/')[-1].split('?')[0]`: the last path segment with the query
string stripped. -/
def pathSegment (url : String) : String :=
  String.mk (((splitOnChar '/' url.data).getLastD []).takeWhile (fun c => c != '?'))

/-- `_generate_filename`: use the sanitized last path segment when it is
nonempty and longer than 5 characters, otherwise `image_{index:03d}{ext}`. -/
def generate_filename (url : String) (index : Nat) : String :=
  let original_name := pathSegment url
  if original_name ≠ "" ∧ 5 < original_name.length then sanitize_filename original_name
  else "image_" ++ pad3 index ++ get_file_extension url

example : generate_filename "https://n1.kemono.cr/data/abc.jpg?x=1" 1 = "abc.jpg" := by decide
example : generate_filename "https://n1.kemono.cr/data/x" 7 = "image_007.png" := by decide
example : get_file_extension "https://h/p/a.JPG" = ".jpg" := by decide
example : get_file_extension "https://h/p/a.txt" = ".png" := by decide

/-! ## Download engine state

Both downloader classes keep `self.stats = {'total', 'downloaded', 'skipped',
'failed', 'bytes'}`.  The filesystem is modelled as the list of existing file
paths (`os.path.exists` / file writes), and the number of issued network
requests is tracked explicitly.  `SKIP_EXISTING` is `True` in `config.py`. -/

/-- The `self.stats` dictionary of both downloaders. -/
structure Stats where
  total : Nat
  downloaded : Nat
  skipped : Nat
  failed : Nat
  bytes : Nat
deriving DecidableEq

/-- A single download job: URL, destination directory, 1-based index within
its post (the arguments of `download_image`). -/
structure Job where
  url : String
  dir : String
  index : Nat
deriving DecidableEq

/-- Result of one transport-level attempt (`requests.get` / `session.get`
plus the streamed write): success with a byte count, or a request error. -/
inductive Transfer where
  | ok (bytes : Nat)
  | err
deriving DecidableEq

/-- Engine state: statistics, existing files, and issued request count. -/
structure EngineState where
  stats : Stats
  fs : List String
  requests : Nat
deriving DecidableEq

/-- `os.path.join(save_dir, filename)` with the filename from
`_generate_filename`. -/
def filepath (j : Job) : String := j.dir ++ "/" ++ generate_filename j.url j.index

/-- Fresh engine state for a run over `jobs`: `download_user_images` sets
`stats['total']` to the number of images before processing any job. -/
def engineInit (jobs : List Job) (fs0 : List String) : EngineState :=
  ⟨⟨jobs.length, 0, 0, 0, 0⟩, fs0, 0⟩

/-! ## Async engine (`downloader_async.py`)

`AsyncImageDownloader.download_image`: if the destination exists, increment
`skipped` and return; otherwise issue exactly one request, incrementing
`downloaded`/`bytes` on success or `failed` on any exception.  The counter
updates of the concurrent tasks are serialized by the single-threaded event
loop, so a run's statistics are the fold of the per-job updates. -/

def asyncStep (tr : Job → Transfer) (st : EngineState) (j : Job) : EngineState :=
  if filepath j ∈ st.fs then
    { st with stats := { st.stats with skipped := st.stats.skipped + 1 } }
  else
    match tr j with
    | Transfer.ok n =>
      { st with
        stats := { st.stats with
                   downloaded := st.stats.downloaded + 1
                   bytes := st.stats.bytes + n }
        fs := filepath j :: st.fs
        requests := st.requests + 1 }
    | Transfer.err =>
      { st with
        stats := { st.stats with failed := st.stats.failed + 1 }
        requests := st.requests + 1 }

/-- One full run of `AsyncImageDownloader.download_user_images` over a flat
job list, on a fresh downloader instance. -/
def asyncRun (tr : Job → Transfer) (fs0 : List String) (jobs : List Job) : EngineState :=
  jobs.foldl (asyncStep tr) (engineInit jobs fs0)

/-- The engine state after the first `k` jobs have their outcome. -/
def asyncRunUpTo (tr : Job → Transfer) (fs0 : List String) (jobs : List Job) (k : Nat) :
    EngineState :=
  (jobs.take k).foldl (asyncStep tr) (engineInit jobs fs0)

/-- The value actually returned by `AsyncImageDownloader.download_user_images`:
`return self.stats['downloaded']`. -/
def asyncRunResult (tr : Job → Transfer) (fs0 : List String) (jobs : List Job) : Nat :=
  (asyncRun tr fs0 jobs).stats.downloaded

/-! ## Sync engine (`downloader.py`)

`ImageDownloader.download_image` retries up to `MAX_RETRIES` times with a
`RETRY_DELAY` sleep between attempts; on a skip it increments `skipped` and
returns `True`, and the caller in `download_user_images` increments
`downloaded` whenever the call returns `True`. -/

def MAX_RETRIES : Nat := 3

def RETRY_DELAY : Nat := 2

/-- The retry loop `for attempt in range(MAX_RETRIES)` of the sync
`download_image`, with `r` attempts remaining and `a` the current attempt
index; `f a` is the transport result of attempt `a`.  Returns the byte count
on success together with the number of attempts made and the number of
`time.sleep(RETRY_DELAY)` calls (one after every non-final failure). -/
def attemptLoop (f : Nat → Transfer) : Nat → Nat → Option Nat × Nat × Nat
  | 0, _ => (none, 0, 0)
  | r + 1, a =>
    match f a with
    | Transfer.ok n => (some n, 1, 0)
    | Transfer.err =>
      if r = 0 then (none, 1, 0)
      else
        let rest := attemptLoop f r (a + 1)
        (rest.1, rest.2.1 + 1, rest.2.2 + 1)

/-- The single attempt made by the async `download_image` (it has no retry
loop): one request, outcome of attempt `0`, together with the attempt count. -/
def asyncAttempt (f : Nat → Transfer) : Option Nat × Nat :=
  match f 0 with
  | Transfer.ok n => (some n, 1)
  | Transfer.err => (none, 1)

/-- One job of the sync engine: the skip branch returns `True`, so the caller
additionally increments `downloaded`; `tr j a` is the transport result of
attempt `a` for job `j`. -/
def syncStep (tr : Job → Nat → Transfer) (st : EngineState) (j : Job) : EngineState :=
  if filepath j ∈ st.fs then
    { st with
      stats := { st.stats with
                 downloaded := st.stats.downloaded + 1
                 skipped := st.stats.skipped + 1 } }
  else
    let res := attemptLoop (tr j) MAX_RETRIES 0
    match res.1 with
    | some n =>
      { st with
        stats := { st.stats with
                   downloaded := st.stats.downloaded + 1
                   bytes := st.stats.bytes + n }
        fs := filepath j :: st.fs
        requests := st.requests + res.2.1 }
    | none =>
      { st with
        stats := { st.stats with failed := st.stats.failed + 1 }
        requests := st.requests + res.2.1 }

/-- One full run of `ImageDownloader.download_user_images` over a flat job
list, on a fresh downloader instance. -/
def syncRun (tr : Job → Nat → Transfer) (fs0 : List String) (jobs : List Job) : EngineState :=
  jobs.foldl (syncStep tr) (engineInit jobs fs0)

/-! ## `get_stats` (identical in both downloaders) -/

/-- The dictionary returned by `get_stats`: the five counters plus the
derived success rate (`format_bytes` is floating-point presentation and is
not modelled). -/
structure Summary where
  total : Nat
  downloaded : Nat
  skipped : Nat
  failed : Nat
  bytes : Nat
  success_rate : ℚ

/-- `get_stats`: spread of the five counters, with
`success_rate = downloaded / total * 100 if total > 0 else 0`. -/
def get_stats (s : Stats) : Summary :=
  ⟨s.total, s.downloaded, s.skipped, s.failed, s.bytes,
   if 0 < s.total then (s.downloaded : ℚ) / (s.total : ℚ) * 100 else 0⟩

example :
    (syncRun (fun _ _ => Transfer.err) ["d/abcdef.jpg"] [⟨"https://h/abcdef.jpg", "d", 1⟩]).stats
      = ⟨1, 1, 1, 0, 0⟩ := by decide

example :
    (asyncRun (fun _ => Transfer.err) [] [⟨"https://h/abcdef.jpg", "d", 1⟩]).stats
      = ⟨1, 0, 0, 1, 0⟩ := by decide

/-! ## Parser model (`parser.py`)

HTML parsing itself is an external collaborator; a listing page is modelled
by the data the parser extracts from it: the post URLs in document order, the
`>` next-button (present or not, and the `?o=` offset its href carries if
any), and the offsets of the other pagination links. -/

/-- A listing page, as seen by `KemonoParser`. -/
structure Page where
  links : List String
  nextButton : Option (Option Nat)
  pageOffsets : List Nat
deriving DecidableEq

/-- Append a URL unless it is already present (the
`if full_url not in post_urls: post_urls.append(full_url)` step). -/
def ins (acc : List String) (u : String) : List String :=
  if u ∈ acc then acc else acc ++ [u]

/-- `KemonoParser.parse_user_posts`: collect the page's post URLs in document
order, skipping duplicates within the page. -/
def parse_user_posts (links : List String) : List String :=
  links.foldl ins []

/-- The fallback branch of `get_pagination_offset`: the maximum offset among
all pagination links (starting from `current`); if it exceeds `current`,
return `current + 50`. -/
def paginationFallback (p : Page) (current : Nat) : Option Nat :=
  if current < p.pageOffsets.foldl max current then some (current + 50) else none

/-- `KemonoParser.get_pagination_offset`: the `>` button's offset when it is
strictly advancing, otherwise the fallback scan. -/
def get_pagination_offset (p : Page) (current : Nat) : Option Nat :=
  match p.nextButton with
  | some (some n) => if current < n then some n else paginationFallback p current
  | some none => paginationFallback p current
  | none => paginationFallback p current

/-! ## Crawl loop (`scraper.KemonoScraper.get_user_posts`)

The `while True` loop is embedded with explicit fuel; `none` means the fuel
ran out before the loop stopped on its own.  `site` maps an offset to the
fetched listing page, `none` being a fetch failure (`_fetch_page` returning
`None`, or any exception caught by the `except` around the loop body).  The
loop is parametrized by the next-offset extractor `pag` so that the fake
constant extractor of the spec's pagination-termination test can be plugged
in; the real crawler uses `get_pagination_offset`. -/

def crawlLoopE (pag : Page → Nat → Option Nat) (site : Nat → Option Page) :
    Nat → Nat → List String → Option (List String)
  | 0, _, _ => none
  | f + 1, offset, acc =>
    match site offset with
    | none => some acc
    | some page =>
      let posts := parse_user_posts page.links
      if posts = [] then some acc
      else
        let acc2 := acc ++ posts.filter (fun p => decide (p ∉ acc))
        match pag page offset with
        | none => some acc2
        | some n => if n = offset then some acc2 else crawlLoopE pag site f n acc2

/-- The crawl loop with the real pagination extractor. -/
def crawlLoop (site : Nat → Option Page) : Nat → Nat → List String → Option (List String) :=
  crawlLoopE get_pagination_offset site

/-- A site whose pages beyond offset `B` contain no posts (every real site is
of this shape for some `B`). -/
def emptyBeyond (site : Nat → Option Page) (B : Nat) : Prop :=
  ∀ o, B ≤ o → ∀ p, site o = some p → parse_user_posts p.links = []

/-- The accumulation step of the crawl loop
(`all_posts.extend([p for p in posts if p not in all_posts])`), applied to a
page's extracted link list. -/
def scrapeStep (acc : List String) (links : List String) : List String :=
  acc ++ (parse_user_posts links).filter (fun p => decide (p ∉ acc))

/-- The post URLs accumulated over a sequence of listing pages. -/
def scrapeAccum (pages : List (List String)) : List String :=
  pages.foldl scrapeStep []

/-- Modelled from the spec's words: the canonical first-seen deduplication of
a URL sequence ("contains each post URL exactly once, in first-seen
(discovery) order"), for comparison with the crawler's accumulation. -/
def specFirstSeen (l : List String) : List String := l.foldl ins []

/-! ## Rate gate (`downloader_async.py`, lines 146-154)

Inside the semaphore each task runs
`t = time.time(); if t - last < d: await asyncio.sleep(d - (t - last));
last = time.time(); <start request>`.
The event loop is cooperative: the code between two `await`s runs atomically,
and `last` is only written after the sleep.  A gate trace is a list of
events: `enter j t` is task `j` reaching the gate at wall-clock time `t`
(read of `last`, and either an atomic start or going to sleep), `wake j` is
task `j`'s sleep timer firing (write of `last` and start of the request).
Event validity mirrors the event loop: the clock never goes backwards, and
no event may be processed at a time later than an already-due sleep timer.
Wall-clock instants are integers in an arbitrary unit (say, milliseconds);
the race does not depend on times being fractional. -/

/-- Gate state: current wall-clock time, the shared `last_download_time`,
sleeping tasks with their wake times, and the issued starts in order. -/
structure GateState where
  clock : Int
  last : Int
  sleeping : List (Nat × Int)
  starts : List (Nat × Int)
deriving DecidableEq

/-- A scheduling event at the rate gate. -/
inductive GateEvt where
  | enter (j : Nat) (t : Int)
  | wake (j : Nat)
deriving DecidableEq

/-- One gate event; `none` if the event is not valid at this state. -/
def gateStep (d : Int) (s : GateState) (e : GateEvt) : Option GateState :=
  match e with
  | GateEvt.enter j t =>
    if s.clock ≤ t ∧ ∀ p ∈ s.sleeping, t ≤ p.2 then
      if t - s.last < d then
        some { s with clock := t, sleeping := s.sleeping ++ [(j, s.last + d)] }
      else
        some { s with clock := t, last := t, starts := s.starts ++ [(j, t)] }
    else none
  | GateEvt.wake j =>
    match s.sleeping.find? (fun p => p.1 == j) with
    | some jw =>
      if s.clock ≤ jw.2 ∧ ∀ p ∈ s.sleeping, jw.2 ≤ p.2 then
        some ⟨jw.2, jw.2, s.sleeping.filter (fun p => !(p.1 == j)),
              s.starts ++ [(jw.1, jw.2)]⟩
      else none
    | none => none

/-- The initial gate state: `self.last_download_time = 0`. -/
def gateInit : GateState := ⟨0, 0, [], []⟩

/-- Execute a gate trace from the initial state. -/
def gateRun (d : Int) (evts : List GateEvt) : Option GateState :=
  evts.foldlM (gateStep d) gateInit

/-- Modelled from the spec's words: "the elapsed wall-clock time between
successive job start timestamps is never less than d". -/
def successiveGapsOk (d : Int) : List (Nat × Int) → Bool
  | (_, t1) :: (j2, t2) :: rest =>
    decide (d ≤ t2 - t1) && successiveGapsOk d ((j2, t2) :: rest)
  | _ => true

example :
    gateRun 1 [GateEvt.enter 1 10, GateEvt.enter 2 10, GateEvt.enter 3 10,
               GateEvt.wake 2, GateEvt.wake 3]
      = some ⟨11, 11, [], [(1, 10), (2, 11), (3, 11)]⟩ := by decide

example : successiveGapsOk 1 [(1, 10), (2, 11), (3, 11)] = false := by decide

/-! ## Helper lemmas -/

/-- Number of jobs whose outcome has been recorded. -/
def outcomeSum (st : EngineState) : Nat :=
  st.stats.downloaded + st.stats.skipped + st.stats.failed

lemma asyncStep_sum (tr : Job → Transfer) (st : EngineState) (j : Job) :
    outcomeSum (asyncStep tr st j) = outcomeSum st + 1
      ∧ (asyncStep tr st j).stats.total = st.stats.total := by
  unfold asyncStep outcomeSum
  split
  · simp
    omega
  · cases tr j <;> simp <;> omega

lemma asyncFold_sum (tr : Job → Transfer) (l : List Job) :
    ∀ st : EngineState,
      outcomeSum (l.foldl (asyncStep tr) st) = outcomeSum st + l.length
        ∧ (l.foldl (asyncStep tr) st).stats.total = st.stats.total := by
  induction l with
  | nil => intro st; simp
  | cons j l ih =>
    intro st
    simp only [List.foldl_cons, List.length_cons]
    constructor
    · rw [(ih (asyncStep tr st j)).1, (asyncStep_sum tr st j).1]; omega
    · rw [(ih (asyncStep tr st j)).2, (asyncStep_sum tr st j).2]

/-! ## C1 -/

/-- C1, counterexample: in the sync engine (`downloader.py`) a job whose
destination file already exists increments both `skipped` (inside
`download_image`) and `downloaded` (in the caller, because `download_image`
returned `True`), so after a run with one skipped job
`downloaded + skipped + failed = 2 > 1 = total`, falsifying the claimed
invariant. -/
theorem c1_counterexample :
    ¬ ((syncRun (fun _ _ => Transfer.err) ["d/abcdef.jpg"]
          [⟨"https://h/abcdef.jpg", "d", 1⟩]).stats.downloaded
        + (syncRun (fun _ _ => Transfer.err) ["d/abcdef.jpg"]
            [⟨"https://h/abcdef.jpg", "d", 1⟩]).stats.skipped
        + (syncRun (fun _ _ => Transfer.err) ["d/abcdef.jpg"]
            [⟨"https://h/abcdef.jpg", "d", 1⟩]).stats.failed
      ≤ (syncRun (fun _ _ => Transfer.err) ["d/abcdef.jpg"]
          [⟨"https://h/abcdef.jpg", "d", 1⟩]).stats.total) := by decide

/-- C1, amended: in the async engine (`downloader_async.py`) every job's
outcome increments exactly one of the three counters, so after any `k` of the
jobs have an outcome `downloaded + skipped + failed = k ≤ total`, with
equality once every job has an outcome; `total` is the job count throughout
the run. -/
theorem c1_amended (tr : Job → Transfer) (fs0 : List String) (jobs : List Job)
    (k : Nat) (hk : k ≤ jobs.length) :
    outcomeSum (asyncRunUpTo tr fs0 jobs k) = k
    ∧ (asyncRunUpTo tr fs0 jobs k).stats.total = jobs.length
    ∧ outcomeSum (asyncRunUpTo tr fs0 jobs k) ≤ (asyncRunUpTo tr fs0 jobs k).stats.total
    ∧ (k = jobs.length →
        outcomeSum (asyncRunUpTo tr fs0 jobs k) = (asyncRunUpTo tr fs0 jobs k).stats.total)
    ∧ (∀ st j, outcomeSum (asyncStep tr st j) = outcomeSum st + 1) := by
  have h := asyncFold_sum tr (jobs.take k) (engineInit jobs fs0)
  have hlen : (jobs.take k).length = k := by
    rw [List.length_take]; omega
  have hinit0 : outcomeSum (engineInit jobs fs0) = 0 := rfl
  have hinitT : (engineInit jobs fs0).stats.total = jobs.length := rfl
  unfold asyncRunUpTo
  refine ⟨?_, ?_, ?_, ?_, fun st j => (asyncStep_sum tr st j).1⟩
  · rw [h.1, hinit0, hlen]; omega
  · rw [h.2, hinitT]
  · rw [h.1, h.2, hinit0, hinitT, hlen]; omega
  · intro hk2; rw [h.1, h.2, hinit0, hinitT, hlen, hk2]; omega

/-- C1, witness for the amended theorem at a concrete two-job run. -/
theorem c1_witness :
    outcomeSum (asyncRunUpTo (fun _ => Transfer.err) []
        [⟨"https://h/a.jpg", "d", 1⟩, ⟨"https://h/b.jpg", "d", 2⟩] 1) = 1
    ∧ (asyncRunUpTo (fun _ => Transfer.err) []
        [⟨"https://h/a.jpg", "d", 1⟩, ⟨"https://h/b.jpg", "d", 2⟩] 1).stats.total = 2 :=
  ⟨(c1_amended (fun _ => Transfer.err) []
      [⟨"https://h/a.jpg", "d", 1⟩, ⟨"https://h/b.jpg", "d", 2⟩] 1 (by decide)).1,
   (c1_amended (fun _ => Transfer.err) []
      [⟨"https://h/a.jpg", "d", 1⟩, ⟨"https://h/b.jpg", "d", 2⟩] 1 (by decide)).2.1⟩

/-! ## C2 -/

/-- C2, counterexample: the async `download_image` has no retry loop.  With a
transport that fails on exactly the first `MAX_RETRIES - 1 = 2` attempts and
would succeed on the next one, the async engine makes exactly one attempt and
its outcome is Failed (`none`), not Downloaded as the claim states. -/
theorem c2_counterexample :
    (fun i => if i < 2 then Transfer.err else Transfer.ok 7) 0 = Transfer.err
    ∧ (fun i => if i < 2 then Transfer.err else Transfer.ok 7) 1 = Transfer.err
    ∧ (fun i => if i < 2 then Transfer.err else Transfer.ok 7) 2 = Transfer.ok 7
    ∧ asyncAttempt (fun i => if i < 2 then Transfer.err else Transfer.ok 7) = (none, 1) := by
  decide

/-- C2, amended: the claim holds for the sync engine (`downloader.py`): a
transport failing on exactly the first `MAX_RETRIES - 1` attempts and then
succeeding yields a successful download after exactly `MAX_RETRIES` attempts
with `MAX_RETRIES - 1` fixed `RETRY_DELAY` sleeps between attempts, and an
always-failing transport yields a failure after exactly `MAX_RETRIES`
attempts; the async engine instead always makes exactly one attempt. -/
theorem c2_amended :
    (∀ (f : Nat → Transfer) (n : Nat),
        (∀ i, i < MAX_RETRIES - 1 → f i = Transfer.err) →
        f (MAX_RETRIES - 1) = Transfer.ok n →
        attemptLoop f MAX_RETRIES 0 = (some n, MAX_RETRIES, MAX_RETRIES - 1))
    ∧ (∀ f : Nat → Transfer, (∀ i, f i = Transfer.err) →
        attemptLoop f MAX_RETRIES 0 = (none, MAX_RETRIES, MAX_RETRIES - 1))
    ∧ (∀ f : Nat → Transfer, (asyncAttempt f).2 = 1) := by
  refine ⟨?_, ?_, ?_⟩
  · intro f n h hl
    have h0 : f 0 = Transfer.err := h 0 (by decide)
    have h1 : f 1 = Transfer.err := h 1 (by decide)
    have hl2 : f 2 = Transfer.ok n := hl
    simp [MAX_RETRIES, attemptLoop, h0, h1, hl2]
  · intro f h
    simp [MAX_RETRIES, attemptLoop, h 0, h 1, h 2]
  · intro f
    unfold asyncAttempt
    cases f 0 <;> rfl

/-- C2, witness for the amended theorem at concrete transports. -/
theorem c2_witness :
    attemptLoop (fun i => if i < 2 then Transfer.err else Transfer.ok 7) MAX_RETRIES 0
      = (some 7, MAX_RETRIES, MAX_RETRIES - 1)
    ∧ attemptLoop (fun _ => Transfer.err) MAX_RETRIES 0
      = (none, MAX_RETRIES, MAX_RETRIES - 1) :=
  ⟨c2_amended.1 _ 7
      (fun i hi => by
        have h2 : i < 2 := by simpa [MAX_RETRIES] using hi
        interval_cases i <;> decide)
      (by decide),
   c2_amended.2.1 _ (fun i => rfl)⟩

/-! ## C3 -/

/-- C3: the rate gate does not guarantee a minimum gap between successive
starts.  `last_download_time` is only written after the sleep, so two tasks
entering the gate in the same event-loop tick both compute their wake time
from the same stale value.  With `d = 1` and `last = 10`, tasks 2 and 3 both
enter at time 10, both sleep until 11, and both start at time 11: the gap
between their start timestamps is 0 < d, falsifying the claim on this valid
schedule. -/
theorem c3_claim :
    gateRun 1 [GateEvt.enter 1 10, GateEvt.enter 2 10, GateEvt.enter 3 10,
               GateEvt.wake 2, GateEvt.wake 3]
      = some ⟨11, 11, [], [(1, 10), (2, 11), (3, 11)]⟩
    ∧ successiveGapsOk 1 [(1, 10), (2, 11), (3, 11)] = false := by decide

/-! ## C6 -/

/-- C6: filename generation.  Concrete cases: `.../abc.jpg?x=1` gives
`abc.jpg`, `.../x` at index 7 gives `image_007.png`, an uppercase `.JPG` is
recognized case-insensitively; in general the sanitized last path segment
(query string stripped) is used exactly when it is nonempty and longer than
5 characters, the fallback name is `image_` plus the zero-padded index plus
the derived extension, and the derived extension is always either `.png` or
a dot followed by an allowlisted extension. -/
theorem c6_claim :
    generate_filename "https://n1.kemono.cr/data/abc.jpg?x=1" 1 = "abc.jpg"
    ∧ generate_filename "https://n1.kemono.cr/data/x" 7 = "image_007.png"
    ∧ get_file_extension "https://h/p/a.JPG" = ".jpg"
    ∧ (∀ url idx, pathSegment url ≠ "" → 5 < (pathSegment url).length →
        generate_filename url idx = sanitize_filename (pathSegment url))
    ∧ (∀ url idx, ¬(pathSegment url ≠ "" ∧ 5 < (pathSegment url).length) →
        generate_filename url idx = "image_" ++ pad3 idx ++ get_file_extension url)
    ∧ (∀ url, get_file_extension url = ".png"
        ∨ ∃ e, e ∈ imageExts ∧ get_file_extension url = "." ++ e) := by
  refine ⟨by decide, by decide, by decide, ?_, ?_, ?_⟩
  · intro url idx h1 h2
    simp only [generate_filename]
    rw [if_pos ⟨h1, h2⟩]
  · intro url idx h
    simp only [generate_filename]
    rw [if_neg h]
  · intro url
    unfold get_file_extension
    cases h : scanExt url.data with
    | none => simp
    | some run =>
      simp only []
      by_cases hm : String.mk (run.map Char.toLower) ∈ imageExts
      · right
        exact ⟨String.mk (run.map Char.toLower), hm, by rw [if_pos hm]⟩
      · left
        rw [if_neg hm]

/-- C6, witness: the general clauses applied at concrete URLs. -/
theorem c6_witness :
    generate_filename "http://a/b/longname.png" 2
      = sanitize_filename (pathSegment "http://a/b/longname.png")
    ∧ generate_filename "http://a/b/x" 3
      = "image_" ++ pad3 3 ++ get_file_extension "http://a/b/x" :=
  ⟨c6_claim.2.2.2.1 _ 2 (by decide) (by decide),
   c6_claim.2.2.2.2.1 _ 3 (by decide)⟩

/-! ## C8 -/

/-- C8: `AsyncImageDownloader.download_user_images` returns
`self.stats['downloaded']`, not the statistics snapshot (contradicting its
own docstring).  Two runs with different final statistics (one failed job
versus one skipped job) both return `0`, so the returned value cannot be the
statistics snapshot. -/
theorem c8_claim :
    asyncRunResult (fun _ => Transfer.err) [] [⟨"https://h/abcdef.jpg", "d", 1⟩] = 0
    ∧ asyncRunResult (fun _ => Transfer.ok 9) ["d/abcdef.jpg"]
        [⟨"https://h/abcdef.jpg", "d", 1⟩] = 0
    ∧ (asyncRun (fun _ => Transfer.err) [] [⟨"https://h/abcdef.jpg", "d", 1⟩]).stats
        ≠ (asyncRun (fun _ => Transfer.ok 9) ["d/abcdef.jpg"]
            [⟨"https://h/abcdef.jpg", "d", 1⟩]).stats := by decide

/-! ## C9 -/

/-- C9: when the page fetch fails at the current offset, the crawl loop
returns exactly the post URLs accumulated so far (the model is total, so no
exception escapes the crawl boundary). -/
theorem c9_claim (site : Nat → Option Page) (f o : Nat) (acc : List String)
    (hf : 0 < f) (hsite : site o = none) :
    crawlLoop site f o acc = some acc := by
  cases f with
  | zero => exact absurd hf (by omega)
  | succ f =>
    unfold crawlLoop crawlLoopE
    rw [hsite]

/-- C9, witness: a site whose fetches always fail returns the accumulator. -/
theorem c9_witness : crawlLoop (fun _ => none) 1 0 ["x"] = some ["x"] :=
  c9_claim (fun _ => none) 1 0 ["x"] (by decide) rfl

/-! ## C10 -/

/-- C10: `get_stats` is total: the five counters are returned unchanged,
the success rate is 0 when `total = 0` (never a division by zero), and when
`total > 0` it satisfies `success_rate * total = downloaded * 100`, i.e. it
equals `downloaded / total * 100`. -/
theorem c10_claim (s : Stats) :
    (get_stats s).total = s.total
    ∧ (get_stats s).downloaded = s.downloaded
    ∧ (get_stats s).skipped = s.skipped
    ∧ (get_stats s).failed = s.failed
    ∧ (get_stats s).bytes = s.bytes
    ∧ (s.total = 0 → (get_stats s).success_rate = 0)
    ∧ (0 < s.total →
        (get_stats s).success_rate * (s.total : ℚ) = (s.downloaded : ℚ) * 100) := by
  refine ⟨rfl, rfl, rfl, rfl, rfl, ?_, ?_⟩
  · intro h
    simp [get_stats, h]
  · intro h
    have ht : (0 : ℚ) < (s.total : ℚ) := by exact_mod_cast h
    simp only [get_stats, if_pos h]
    field_simp

/-- C10, witness: a concrete statistics state with `total = 4`,
`downloaded = 1`. -/
theorem c10_witness :
    (get_stats ⟨4, 1, 2, 1, 0⟩).success_rate * ((4 : Nat) : ℚ) = ((1 : Nat) : ℚ) * 100 :=
  (c10_claim ⟨4, 1, 2, 1, 0⟩).2.2.2.2.2.2 (by decide)

/-! ## Deduplication lemmas (for C5)

`ddAux seen l` is the sequence of first occurrences in `l` of URLs not in
`seen`; it characterizes both the per-page dedup of `parse_user_posts` and
the cross-page filter of the scraper loop. -/

/-- First occurrences in `l` of elements outside `seen`. -/
def ddAux (seen : List String) : List String → List String
  | [] => []
  | u :: l => if u ∈ seen then ddAux seen l else u :: ddAux (seen ++ [u]) l

lemma ddAux_congr : ∀ (l s1 s2 : List String), (∀ x, x ∈ s1 ↔ x ∈ s2) →
    ddAux s1 l = ddAux s2 l := by
  intro l
  induction l with
  | nil => intro s1 s2 _; rfl
  | cons u l ih =>
    intro s1 s2 h
    simp only [ddAux]
    by_cases hu : u ∈ s1
    · rw [if_pos hu, if_pos ((h u).mp hu)]
      exact ih s1 s2 h
    · rw [if_neg hu, if_neg (fun c => hu ((h u).mpr c))]
      congr 1
      refine ih _ _ (fun x => ?_)
      rw [List.mem_append, List.mem_append, h x]

lemma foldl_ins_eq : ∀ (l acc : List String), l.foldl ins acc = acc ++ ddAux acc l := by
  intro l
  induction l with
  | nil => intro acc; simp [ddAux]
  | cons u l ih =>
    intro acc
    simp only [List.foldl_cons, ddAux, ins]
    by_cases hu : u ∈ acc
    · rw [if_pos hu, if_pos hu, ih]
    · rw [if_neg hu, if_neg hu, ih]
      simp

lemma ddAux_filter : ∀ (l s t : List String),
    (ddAux s l).filter (fun u => decide (u ∉ t)) = ddAux (s ++ t) l := by
  intro l
  induction l with
  | nil => intro s t; rfl
  | cons u l ih =>
    intro s t
    simp only [ddAux]
    by_cases hs : u ∈ s
    · rw [if_pos hs, if_pos (List.mem_append.mpr (Or.inl hs))]
      exact ih s t
    · rw [if_neg hs]
      by_cases ht : u ∈ t
      · rw [if_pos (List.mem_append.mpr (Or.inr ht))]
        have hdec : decide (u ∉ t) = false := by simp [ht]
        rw [List.filter_cons, hdec, if_neg (by simp)]
        rw [ih (s ++ [u]) t]
        refine ddAux_congr l _ _ (fun x => ?_)
        simp only [List.mem_append, List.mem_singleton]
        constructor
        · rintro ((hx | rfl) | hx) <;> tauto
        · rintro (hx | hx) <;> tauto
      · have hmem : u ∉ s ++ t := by
          simp only [List.mem_append]
          tauto
        rw [if_neg hmem]
        have hdec : decide (u ∉ t) = true := by simp [ht]
        rw [List.filter_cons, hdec, if_pos rfl]
        congr 1
        rw [ih (s ++ [u]) t]
        refine ddAux_congr l _ _ (fun x => ?_)
        simp only [List.mem_append, List.mem_singleton]
        tauto

lemma scrapeStep_eq (acc page : List String) : scrapeStep acc page = page.foldl ins acc := by
  unfold scrapeStep parse_user_posts
  rw [foldl_ins_eq page ([] : List String), foldl_ins_eq page acc]
  simp only [List.nil_append]
  rw [ddAux_filter page [] acc]
  simp

lemma scrapeAccum_join : ∀ (pages : List (List String)) (acc : List String),
    pages.foldl scrapeStep acc = pages.flatten.foldl ins acc := by
  intro pages
  induction pages with
  | nil => intro acc; simp
  | cons p ps ih =>
    intro acc
    simp only [List.foldl_cons, List.flatten_cons, List.foldl_append]
    rw [scrapeStep_eq, ih]

lemma ddAux_not_mem_seen : ∀ (l s : List String) (u : String), u ∈ ddAux s l → u ∉ s := by
  intro l
  induction l with
  | nil => intro s u h; cases h
  | cons v l ih =>
    intro s u h
    by_cases hv : v ∈ s
    · rw [ddAux, if_pos hv] at h
      exact ih s u h
    · rw [ddAux, if_neg hv] at h
      rcases List.mem_cons.mp h with rfl | h2
      · exact hv
      · intro hus
        exact (ih _ u h2) (List.mem_append.mpr (Or.inl hus))

lemma ddAux_nodup : ∀ (l s : List String), (ddAux s l).Nodup := by
  intro l
  induction l with
  | nil => intro s; exact List.nodup_nil
  | cons v l ih =>
    intro s
    by_cases hv : v ∈ s
    · rw [ddAux, if_pos hv]
      exact ih s
    · rw [ddAux, if_neg hv]
      refine List.nodup_cons.mpr ⟨?_, ih _⟩
      intro hmem
      exact (ddAux_not_mem_seen l (s ++ [v]) v hmem) (by simp)

lemma ddAux_mem : ∀ (l s : List String) (u : String),
    u ∈ ddAux s l ↔ (u ∈ l ∧ u ∉ s) := by
  intro l
  induction l with
  | nil => intro s u; simp [ddAux]
  | cons v l ih =>
    intro s u
    by_cases hv : v ∈ s
    · rw [ddAux, if_pos hv, ih]
      simp only [List.mem_cons]
      constructor
      · rintro ⟨h1, h2⟩
        exact ⟨Or.inr h1, h2⟩
      · rintro ⟨rfl | h1, h2⟩
        · exact absurd hv h2
        · exact ⟨h1, h2⟩
    · rw [ddAux, if_neg hv]
      simp only [List.mem_cons, ih, List.mem_append, List.mem_singleton]
      by_cases huv : u = v
      · subst huv; tauto
      · tauto

/-! ## C5 -/

/-- C5: over any sequence of listing pages (possibly overlapping), the
crawler's accumulated output equals the first-seen deduplication of the
concatenated page contents: it is duplicate-free, contains exactly the URLs
appearing on some page, each exactly once, in discovery order. -/
theorem c5_claim (pages : List (List String)) :
    scrapeAccum pages = specFirstSeen pages.flatten
    ∧ (scrapeAccum pages).Nodup
    ∧ (∀ u, u ∈ scrapeAccum pages ↔ u ∈ pages.flatten)
    ∧ (∀ u, u ∈ pages.flatten → (scrapeAccum pages).count u = 1) := by
  have he : scrapeAccum pages = ddAux [] pages.flatten := by
    unfold scrapeAccum
    rw [scrapeAccum_join, foldl_ins_eq]
    simp
  have hspec : scrapeAccum pages = specFirstSeen pages.flatten := by
    unfold specFirstSeen
    rw [he, foldl_ins_eq]
    simp
  have hnd : (scrapeAccum pages).Nodup := by
    rw [he]; exact ddAux_nodup _ _
  have hmm : ∀ u, u ∈ scrapeAccum pages ↔ u ∈ pages.flatten := by
    intro u
    rw [he, ddAux_mem]
    simp
  refine ⟨hspec, hnd, hmm, fun u hu => ?_⟩
  exact List.count_eq_one_of_mem hnd ((hmm u).mpr hu)

/-- C5, witness: two overlapping pages. -/
theorem c5_witness :
    (scrapeAccum [["a", "b"], ["b", "c"]]).count "b" = 1
    ∧ scrapeAccum [["a", "b"], ["b", "c"]] = specFirstSeen ([["a", "b"], ["b", "c"]].flatten) :=
  ⟨(c5_claim [["a", "b"], ["b", "c"]]).2.2.2 "b" (by decide),
   (c5_claim [["a", "b"], ["b", "c"]]).1⟩

/-! ## Async skip lemmas (for C7) -/

lemma asyncStep_fs_mono (tr : Job → Transfer) (st : EngineState) (j : Job) :
    ∀ p, p ∈ st.fs → p ∈ (asyncStep tr st j).fs := by
  intro p hp
  unfold asyncStep
  split
  · exact hp
  · cases tr j
    · exact List.mem_cons_of_mem _ hp
    · exact hp

lemma asyncFold_fs_mono (tr : Job → Transfer) :
    ∀ (l : List Job) (st : EngineState) (p : String),
      p ∈ st.fs → p ∈ (l.foldl (asyncStep tr) st).fs := by
  intro l
  induction l with
  | nil => intro st p hp; exact hp
  | cons j l ih =>
    intro st p hp
    exact ih (asyncStep tr st j) p (asyncStep_fs_mono tr st j p hp)

lemma asyncStep_failed_mono (tr : Job → Transfer) (st : EngineState) (j : Job) :
    st.stats.failed ≤ (asyncStep tr st j).stats.failed := by
  unfold asyncStep
  split
  · exact Nat.le_refl _
  · cases tr j
    · exact Nat.le_refl _
    · exact Nat.le_succ _

lemma asyncFold_failed_mono (tr : Job → Transfer) :
    ∀ (l : List Job) (st : EngineState),
      st.stats.failed ≤ (l.foldl (asyncStep tr) st).stats.failed := by
  intro l
  induction l with
  | nil => intro st; exact Nat.le_refl _
  | cons j l ih =>
    intro st
    exact Nat.le_trans (asyncStep_failed_mono tr st j) (ih (asyncStep tr st j))

lemma asyncStep_failed_eq (tr : Job → Transfer) (st : EngineState) (j : Job) :
    (asyncStep tr st j).stats.failed = st.stats.failed →
    filepath j ∈ (asyncStep tr st j).fs := by
  unfold asyncStep
  by_cases hmem : filepath j ∈ st.fs
  · rw [if_pos hmem]
    intro _
    exact hmem
  · rw [if_neg hmem]
    cases tr j
    · intro _
      exact List.mem_cons_self _ _
    · intro hfail
      exact absurd hfail (by simp)

lemma asyncFold_all_paths (tr : Job → Transfer) :
    ∀ (l : List Job) (st : EngineState),
      (l.foldl (asyncStep tr) st).stats.failed = st.stats.failed →
      ∀ j ∈ l, filepath j ∈ (l.foldl (asyncStep tr) st).fs := by
  intro l
  induction l with
  | nil => intro st _ j hj; cases hj
  | cons j0 l ih =>
    intro st h j hj
    simp only [List.foldl_cons] at h ⊢
    have h1 : st.stats.failed ≤ (asyncStep tr st j0).stats.failed :=
      asyncStep_failed_mono tr st j0
    have h2 : (asyncStep tr st j0).stats.failed
        ≤ (l.foldl (asyncStep tr) (asyncStep tr st j0)).stats.failed :=
      asyncFold_failed_mono tr l (asyncStep tr st j0)
    have heq : (asyncStep tr st j0).stats.failed = st.stats.failed := by omega
    rcases List.mem_cons.mp hj with rfl | hj2
    · exact asyncFold_fs_mono tr l _ _ (asyncStep_failed_eq tr st j heq)
    · exact ih (asyncStep tr st j0) (by omega) j hj2

lemma asyncFold_skips (tr : Job → Transfer) :
    ∀ (l : List Job) (st : EngineState),
      (∀ j ∈ l, filepath j ∈ st.fs) →
      (l.foldl (asyncStep tr) st).stats.skipped = st.stats.skipped + l.length
      ∧ (l.foldl (asyncStep tr) st).stats.downloaded = st.stats.downloaded
      ∧ (l.foldl (asyncStep tr) st).stats.failed = st.stats.failed
      ∧ (l.foldl (asyncStep tr) st).stats.bytes = st.stats.bytes
      ∧ (l.foldl (asyncStep tr) st).stats.total = st.stats.total
      ∧ (l.foldl (asyncStep tr) st).fs = st.fs
      ∧ (l.foldl (asyncStep tr) st).requests = st.requests := by
  intro l
  induction l with
  | nil => intro st _; simp
  | cons j0 l ih =>
    intro st h
    have hj0 : filepath j0 ∈ st.fs := h j0 (List.mem_cons_self _ _)
    have hstep : asyncStep tr st j0
        = { st with stats := { st.stats with skipped := st.stats.skipped + 1 } } := by
      unfold asyncStep
      rw [if_pos hj0]
    simp only [List.foldl_cons, hstep]
    have hrest := ih { st with stats := { st.stats with skipped := st.stats.skipped + 1 } }
      (fun j hj => h j (List.mem_cons_of_mem _ hj))
    simp only [List.length_cons]
    refine ⟨?_, ?_, ?_, ?_, ?_, ?_, ?_⟩
    · rw [hrest.1]
      show st.stats.skipped + 1 + l.length = st.stats.skipped + (l.length + 1)
      omega
    · exact hrest.2.1
    · exact hrest.2.2.1
    · exact hrest.2.2.2.1
    · exact hrest.2.2.2.2.1
    · exact hrest.2.2.2.2.2.1
    · exact hrest.2.2.2.2.2.2

/-! ## C7 -/

/-- C7, counterexample: with a transport that always fails, the first run
records a failure and writes no file, so the second run against the same
directory re-attempts (and fails) rather than skipping: `skipped = 0 ≠ 1 =
total` on the second run, falsifying the unconditional claim. -/
theorem c7_counterexample :
    ¬ ((asyncRun (fun _ => Transfer.err)
          (asyncRun (fun _ => Transfer.err) [] [⟨"https://h/abcdef.jpg", "d", 1⟩]).fs
          [⟨"https://h/abcdef.jpg", "d", 1⟩]).stats.skipped
        = (asyncRun (fun _ => Transfer.err)
            (asyncRun (fun _ => Transfer.err) [] [⟨"https://h/abcdef.jpg", "d", 1⟩]).fs
            [⟨"https://h/abcdef.jpg", "d", 1⟩]).stats.total) := by decide

/-- C7, amended: if the first run records no failed outcome, then a second
run of the engine over the same jobs against the resulting directory yields
`skipped = total`, zero bytes written, zero network requests, and an
unchanged filesystem; and unconditionally, any job whose destination file
exists is recorded as skipped with no request and no state change beyond the
`skipped` counter. -/
theorem c7_amended :
    (∀ (tr : Job → Transfer) (fs0 : List String) (jobs : List Job),
      (asyncRun tr fs0 jobs).stats.failed = 0 →
        (asyncRun tr (asyncRun tr fs0 jobs).fs jobs).stats.skipped
          = (asyncRun tr (asyncRun tr fs0 jobs).fs jobs).stats.total
        ∧ (asyncRun tr (asyncRun tr fs0 jobs).fs jobs).stats.bytes = 0
        ∧ (asyncRun tr (asyncRun tr fs0 jobs).fs jobs).requests = 0
        ∧ (asyncRun tr (asyncRun tr fs0 jobs).fs jobs).fs = (asyncRun tr fs0 jobs).fs)
    ∧ (∀ (tr : Job → Transfer) (st : EngineState) (j : Job), filepath j ∈ st.fs →
        asyncStep tr st j
          = { st with stats := { st.stats with skipped := st.stats.skipped + 1 } }) := by
  constructor
  · intro tr fs0 jobs hfail
    have hall : ∀ j ∈ jobs, filepath j ∈ (asyncRun tr fs0 jobs).fs := by
      refine asyncFold_all_paths tr jobs (engineInit jobs fs0) ?_
      unfold asyncRun at hfail
      rw [hfail]
      rfl
    have h := asyncFold_skips tr jobs (engineInit jobs (asyncRun tr fs0 jobs).fs) hall
    unfold asyncRun at h ⊢
    refine ⟨?_, h.2.2.2.1, h.2.2.2.2.2.2, h.2.2.2.2.2.1⟩
    rw [h.1, h.2.2.2.2.1]
    show 0 + jobs.length = jobs.length
    omega
  · intro tr st j hmem
    unfold asyncStep
    rw [if_pos hmem]

/-- C7, witness: a one-job run with a succeeding transport, then a second
run that skips everything. -/
theorem c7_witness :
    (asyncRun (fun _ => Transfer.ok 5)
        (asyncRun (fun _ => Transfer.ok 5) [] [⟨"https://h/abcdef.jpg", "d", 1⟩]).fs
        [⟨"https://h/abcdef.jpg", "d", 1⟩]).stats.skipped
      = (asyncRun (fun _ => Transfer.ok 5)
          (asyncRun (fun _ => Transfer.ok 5) [] [⟨"https://h/abcdef.jpg", "d", 1⟩]).fs
          [⟨"https://h/abcdef.jpg", "d", 1⟩]).stats.total
    ∧ (asyncRun (fun _ => Transfer.ok 5)
        (asyncRun (fun _ => Transfer.ok 5) [] [⟨"https://h/abcdef.jpg", "d", 1⟩]).fs
        [⟨"https://h/abcdef.jpg", "d", 1⟩]).requests = 0 :=
  ⟨(c7_amended.1 (fun _ => Transfer.ok 5) [] [⟨"https://h/abcdef.jpg", "d", 1⟩]
      (by decide)).1,
   (c7_amended.1 (fun _ => Transfer.ok 5) [] [⟨"https://h/abcdef.jpg", "d", 1⟩]
      (by decide)).2.2.1⟩

/-! ## C4 -/

lemma paginationFallback_lt (p : Page) (cur n : Nat)
    (h : paginationFallback p cur = some n) : cur < n := by
  unfold paginationFallback at h
  split at h
  · injection h with h2
    omega
  · cases h

lemma pagination_lt (p : Page) (cur n : Nat)
    (h : get_pagination_offset p cur = some n) : cur < n := by
  obtain ⟨links, nb, offs⟩ := p
  cases nb with
  | none => exact paginationFallback_lt _ cur n h
  | some ob =>
    cases ob with
    | none => exact paginationFallback_lt _ cur n h
    | some m =>
      unfold get_pagination_offset at h
      dsimp only at h
      by_cases hc : cur < m
      · rw [if_pos hc] at h
        injection h with h2
        omega
      · rw [if_neg hc] at h
        exact paginationFallback_lt _ cur n h

lemma crawlLoopE_succ (pag : Page → Nat → Option Nat) (site : Nat → Option Page)
    (f offset : Nat) (acc : List String) :
    crawlLoopE pag site (f + 1) offset acc
      = match site offset with
        | none => some acc
        | some page =>
          if parse_user_posts page.links = [] then some acc
          else
            match pag page offset with
            | none =>
              some (acc ++ (parse_user_posts page.links).filter (fun p => decide (p ∉ acc)))
            | some n =>
              if n = offset then
                some (acc ++ (parse_user_posts page.links).filter (fun p => decide (p ∉ acc)))
              else
                crawlLoopE pag site f n
                  (acc ++ (parse_user_posts page.links).filter (fun p => decide (p ∉ acc))) := by
  rfl

lemma crawlConst_halt (site : Nat → Option Page) (c : Nat) (acc : List String)
    (f : Nat) (hf : 1 ≤ f) :
    crawlLoopE (fun _ _ => some c) site f c acc
      = crawlLoopE (fun _ _ => some c) site 1 c acc := by
  obtain ⟨f2, rfl⟩ : ∃ f2, f = f2 + 1 := ⟨f - 1, by omega⟩
  have h1 : (1 : Nat) = 0 + 1 := rfl
  rw [h1, crawlLoopE_succ, crawlLoopE_succ]
  cases hs : site c with
  | none => simp only [hs]
  | some page =>
    simp only [hs]
    by_cases hp : parse_user_posts page.links = []
    · rw [if_pos hp, if_pos hp]
    · rw [if_neg hp, if_neg hp]
      simp

lemma crawlConst_stable (site : Nat → Option Page) (c o : Nat) (acc : List String)
    (f : Nat) (hf : 2 ≤ f) :
    crawlLoopE (fun _ _ => some c) site f o acc
      = crawlLoopE (fun _ _ => some c) site 2 o acc := by
  obtain ⟨f2, rfl⟩ : ∃ f2, f = f2 + 2 := ⟨f - 2, by omega⟩
  have h2 : (2 : Nat) = 1 + 1 := rfl
  have h3 : f2 + 2 = (f2 + 1) + 1 := rfl
  rw [h2, h3, crawlLoopE_succ, crawlLoopE_succ]
  cases hs : site o with
  | none => simp only [hs]
  | some page =>
    simp only [hs]
    by_cases hp : parse_user_posts page.links = []
    · rw [if_pos hp, if_pos hp]
    · rw [if_neg hp, if_neg hp]
      by_cases hc : c = o
      · rw [if_pos hc, if_pos hc]
      · rw [if_neg hc, if_neg hc]
        exact crawlConst_halt site c _ (f2 + 1) (by omega)

lemma crawlConst_defined (site : Nat → Option Page) (c o : Nat) (acc : List String) :
    (crawlLoopE (fun _ _ => some c) site 2 o acc).isSome := by
  have h2 : (2 : Nat) = 1 + 1 := rfl
  rw [h2, crawlLoopE_succ]
  cases hs : site o with
  | none => simp only [hs, Option.isSome_some]
  | some page =>
    simp only [hs]
    by_cases hp : parse_user_posts page.links = []
    · rw [if_pos hp]
      rfl
    · rw [if_neg hp]
      by_cases hc : c = o
      · rw [if_pos hc]
        rfl
      · rw [if_neg hc]
        have h1 : (1 : Nat) = 0 + 1 := rfl
        rw [h1, crawlLoopE_succ]
        cases hs2 : site c with
        | none => simp only [hs2, Option.isSome_some]
        | some page2 =>
          simp only [hs2]
          by_cases hp2 : parse_user_posts page2.links = []
          · rw [if_pos hp2]
            rfl
          · rw [if_neg hp2]
            simp

lemma crawl_bounded (site : Nat → Option Page) (B : Nat) (hB : emptyBeyond site B) :
    ∀ (f o : Nat) (acc : List String), 1 ≤ f → B + 1 ≤ o + f →
      (crawlLoop site f o acc).isSome := by
  intro f
  induction f with
  | zero => intro o acc h _; omega
  | succ f ih =>
    intro o acc _ hof
    unfold crawlLoop
    rw [crawlLoopE_succ]
    cases hs : site o with
    | none => simp only [hs, Option.isSome_some]
    | some page =>
      simp only [hs]
      by_cases hp : parse_user_posts page.links = []
      · rw [if_pos hp]
        rfl
      · rw [if_neg hp]
        cases hn : get_pagination_offset page o with
        | none => simp only [hn, Option.isSome_some]
        | some n =>
          simp only [hn]
          by_cases hne : n = o
          · rw [if_pos hne]
            rfl
          · rw [if_neg hne]
            have hlt : o < n := pagination_lt page o n hn
            have hoB : o < B := by
              by_contra hge
              push_neg at hge
              exact hp (hB o hge page hs)
            exact ih n _ (by omega) (by omega)

/-- C4: pagination termination.  (1) `get_pagination_offset` only ever
returns an offset strictly greater than the current one, so the offset is
strictly increasing on every iteration that continues; (2) with a fake
extractor whose next-offset is a constant, the crawl loop's result is
already fixed at fuel 2 — it terminates within one extra iteration — and (3)
against any site whose pages beyond some bound yield no posts, the real
crawl loop terminates with fuel linear in that bound. -/
theorem c4_claim :
    (∀ (p : Page) (cur n : Nat), get_pagination_offset p cur = some n → cur < n)
    ∧ (∀ (site : Nat → Option Page) (c o : Nat) (acc : List String) (f : Nat), 2 ≤ f →
        crawlLoopE (fun _ _ => some c) site f o acc
          = crawlLoopE (fun _ _ => some c) site 2 o acc)
    ∧ (∀ (site : Nat → Option Page) (c o : Nat) (acc : List String),
        (crawlLoopE (fun _ _ => some c) site 2 o acc).isSome)
    ∧ (∀ (site : Nat → Option Page) (B : Nat), emptyBeyond site B →
        ∀ (f o : Nat) (acc : List String), 1 ≤ f → B + 1 ≤ o + f →
          (crawlLoop site f o acc).isSome) :=
  ⟨pagination_lt, fun site c o acc f hf => crawlConst_stable site c o acc f hf,
   crawlConst_defined, crawl_bounded⟩

/-- C4, witness: the strict-increase clause at a concrete page, the
constant-extractor clauses at a concrete site, and the bounded-site clause
at an everywhere-failing site. -/
theorem c4_witness :
    (0 : Nat) < 5
    ∧ crawlLoopE (fun _ _ => some 7) (fun _ => none) 9 0 []
        = crawlLoopE (fun _ _ => some 7) (fun _ => none) 2 0 []
    ∧ (crawlLoopE (fun _ _ => some 7) (fun _ => none) 2 0 []).isSome
    ∧ (crawlLoop (fun _ => none) 1 0 []).isSome :=
  ⟨c4_claim.1 ⟨[], some (some 5), []⟩ 0 5 (by decide),
   c4_claim.2.1 (fun _ => none) 7 0 [] 9 (by decide),
   c4_claim.2.2.1 (fun _ => none) 7 0 [],
   c4_claim.2.2.2 (fun _ => none) 0 (fun _ _ p hp => by cases hp) 1 0 []
     (by decide) (by decide)⟩

end Kemono
